import Mathlib

/-!
Shallow embedding of the retrieval pipeline of the Architectural-Design-Analyzer
repository, and proofs of the specification claims about it.

The embedded components and their sources:
* string helpers modelling Python's `str.strip()`, `str.lower()`, `in`
  (substring test) and `sorted()` over ASCII text;
* `pagesToChunks` / `advancedTextChunkerInit`
  from `src/data_ingestion/chunking.py` (`AdvancedTextChunker`);
* `retryLoop` / `embedTexts` from `src/embedding/gemini_embedder.py`
  (`GeminiEmbedder.embed_texts`);
* `addDocuments` / `queryCollection` from `src/vector_store/chroma_manager.py`
  (`ChromaManager`);
* `generateRuleBasedQueries` from `src/rag_pipeline/query_generator.py`
  (`QueryGenerator._generate_rule_based_queries`);
* `retrieveContexts` from `run_query_service.py` (`run_full_rag_pipeline`,
  the per-query retrieval loop).

External collaborators (the Gemini embedding API, the chromadb collection
primitives, the langchain text splitter) are modelled as explicit oracles or
from their documented behaviour; each such modelling choice is recorded in the
doc comment of the definition concerned.
-/

namespace ArchRag

/-! ### Python string primitives

The repository manipulates ASCII text.  Lean's built-in `String.trim`,
`String.toLower` and `<` on `String` are not used because the embedded
functions must evaluate inside the kernel; instead the Python primitives are
modelled directly over the character lists. -/

/-- Python `str.lower()` on one character, restricted to ASCII (the only
characters the pipeline's fixed templates and keyword tests use). -/
def pyLowerChar (c : Char) : Char :=
  if 65 ≤ c.toNat ∧ c.toNat ≤ 90 then Char.ofNat (c.toNat + 32) else c

/-- Python `str.lower()` (ASCII). -/
def pyLower (s : String) : String := ⟨s.data.map pyLowerChar⟩

/-- Python's whitespace set for `str.strip()`: space, tab, LF, CR, VT, FF. -/
def pyIsSpace (c : Char) : Bool :=
  c.toNat = 32 || c.toNat = 9 || c.toNat = 10 || c.toNat = 13 ||
  c.toNat = 11 || c.toNat = 12

/-- Python `str.strip()`: drop leading and trailing whitespace. -/
def pyStrip (s : String) : String :=
  ⟨((s.data.dropWhile pyIsSpace).reverse.dropWhile pyIsSpace).reverse⟩

/-- Helper for the substring test: does `pat` occur contiguously in the list? -/
def hasSubAux (pat : List Char) : List Char → Bool
  | [] => pat.isEmpty
  | c :: rest => pat.isPrefixOf (c :: rest) || hasSubAux pat rest

/-- Python `pat in s` on strings: contiguous substring containment. -/
def strHasSub (s pat : String) : Bool := hasSubAux pat.data s.data

/-- Code-point lexicographic order on character lists, as Python compares
strings. -/
def charListLe : List Char → List Char → Bool
  | [], _ => true
  | _ :: _, [] => false
  | c :: cs, d :: ds =>
    if c.toNat = d.toNat then charListLe cs ds else decide (c.toNat < d.toNat)

/-- Python `≤` on strings (code-point lexicographic order). -/
def pyStrLe (a b : String) : Bool := charListLe a.data b.data

/-- Insert into a sorted list, keeping it sorted. -/
def insertSorted (le : String → String → Bool) (x : String) :
    List String → List String
  | [] => [x]
  | y :: ys => if le x y then x :: y :: ys else y :: insertSorted le x ys

/-- Python `sorted()` modelled as insertion sort; on the duplicate-free lists
it is applied to here, any correct sort produces the same (unique) ascending
arrangement. -/
def sortStrings (le : String → String → Bool) : List String → List String
  | [] => []
  | x :: xs => insertSorted le x (sortStrings le xs)

/-! ### Chunker (`src/data_ingestion/chunking.py`) -/

/-- One element of `pages_data`: the dictionary `{page_number, text_content}`
produced by the external PDF parser (`page.get("page_number", 0)` and
`page.get("text_content", "")` make both fields total). -/
structure Page where
  page_number : Nat
  text_content : String
deriving Repr, DecidableEq

/-- The metadata dictionary attached to each chunk by `pages_to_chunks`;
`chunk_length_chars` is the key that is present only for chunks of at least
`min_chunk_length_for_metadata` characters. -/
structure ChunkMetadata where
  source_document : String
  original_page_number : Nat
  chunk_sequence_on_page : Nat
  chunk_length_chars : Option Nat
deriving Repr, DecidableEq

/-- One chunk dictionary `{id, text, metadata}` as built by
`pages_to_chunks`. -/
structure Chunk where
  id : String
  text : String
  metadata : ChunkMetadata
deriving Repr, DecidableEq

/-- The name string hashed into the chunk id:
`f"{source_document_name}_p{page_number}_chunk{chunk_seq_on_page+1}_{cleaned_chunk_text[:50]}"`.
`seqIdx` is the 0-based `enumerate` index. -/
def idContentString (src : String) (pageNumber seqIdx : Nat)
    (cleanedText : String) : String :=
  src ++ "_p" ++ toString pageNumber ++ "_chunk" ++ toString (seqIdx + 1) ++
  "_" ++ cleanedText.take 50

/-- The chunks produced from one page by `AdvancedTextChunker.pages_to_chunks`.
`mkId ns s` models `str(uuid.uuid5(self.id_namespace_uuid, s))` — `uuid5` is a
pure function of the namespace and the name string, so it is carried as an
explicit function parameter; `splitText` models
`RecursiveCharacterTextSplitter.split_text`, the external langchain splitter.
Blank pages are skipped; each split piece is stripped; pieces that become
empty are dropped (but still consume their `enumerate` sequence number). -/
def pageToChunks (mkId : String → String → String) (ns : String)
    (minLen : Nat) (src : String) (splitText : String → List String)
    (page : Page) : List Chunk :=
  if pyStrip page.text_content = "" then []
  else
    (splitText page.text_content).enum.filterMap (fun p =>
      let cleaned := pyStrip p.2
      if cleaned = "" then none
      else some
        { id := mkId ns (idContentString src page.page_number p.1 cleaned)
          text := cleaned
          metadata :=
            { source_document := src
              original_page_number := page.page_number
              chunk_sequence_on_page := p.1 + 1
              chunk_length_chars :=
                if minLen ≤ cleaned.length then some cleaned.length
                else none } })

/-- `AdvancedTextChunker.pages_to_chunks`: concatenation of the per-page
chunk lists, in page order. -/
def pagesToChunks (mkId : String → String → String) (ns : String)
    (minLen : Nat) (src : String) (splitText : String → List String)
    (pages : List Page) : List Chunk :=
  pages.flatMap (pageToChunks mkId ns minLen src splitText)

/-- The configuration stored by a successfully constructed
`AdvancedTextChunker`. -/
structure AdvancedTextChunker where
  chunk_target_size : Nat
  chunk_overlap : Nat
  min_chunk_length_for_metadata : Nat
deriving Repr, DecidableEq

/-- `AdvancedTextChunker.__init__`.  The constructor itself performs no
validation; it builds a langchain `RecursiveCharacterTextSplitter`, whose base
`TextSplitter.__init__` (external dependency) raises
`ValueError("Got a larger chunk overlap (...) than chunk size (...), should be
smaller.")` exactly when `chunk_overlap > chunk_size` — a strict comparison.
So construction fails precisely when `chunk_overlap > chunk_target_size`. -/
def advancedTextChunkerInit (chunk_target_size chunk_overlap
    min_chunk_length_for_metadata : Nat) : Except String AdvancedTextChunker :=
  if chunk_target_size < chunk_overlap then
    Except.error "Got a larger chunk overlap than chunk size, should be smaller."
  else
    Except.ok ⟨chunk_target_size, chunk_overlap, min_chunk_length_for_metadata⟩

/-! ### Embedding client (`src/embedding/gemini_embedder.py`)

`GeminiEmbedder.embed_texts` slices the input into batches of `batch_size`,
calls `genai.embed_content` per batch inside a retry loop, and writes the
returned vectors into a preallocated `[None] * len(texts)` array.  The remote
call is modelled by a pure embedding function `f` (the source relies on the
API returning one vector per batch item, in order) together with a success
oracle `ok b a` telling whether attempt `a` (0-based) of batch `b` succeeds. -/

/-- Observable trace of the per-batch retry loop: final result, number of
`genai.embed_content` calls made, and the `time.sleep` durations in order. -/
structure RetryTrace (R : Type) where
  result : Option R
  attempts : Nat
  sleeps : List ℚ
deriving Repr

/-- The retry loop body of `embed_texts`, recursing on the remaining attempt
budget `fuel` (`max_retries - current_retry`); `attempt` is the 0-based index
of the next call.  A failure increments `current_retry`; if the budget is then
exhausted the loop exits without sleeping, otherwise it sleeps
`initial_backoff * 2 ** (current_retry - 1)` seconds and tries again. -/
def retryAux {R : Type} (tryAt : Nat → Option R) (backoff : ℚ) :
    Nat → Nat → RetryTrace R
  | 0, _ => ⟨none, 0, []⟩
  | 1, attempt =>
    match tryAt attempt with
    | some r => ⟨some r, 1, []⟩
    | none => ⟨none, 1, []⟩
  | fuel + 2, attempt =>
    match tryAt attempt with
    | some r => ⟨some r, 1, []⟩
    | none =>
      let t := retryAux tryAt backoff (fuel + 1) (attempt + 1)
      ⟨t.result, t.attempts + 1, backoff * 2 ^ attempt :: t.sleeps⟩

/-- The whole `while current_retry < max_retries` loop for one batch. -/
def retryLoop {R : Type} (tryAt : Nat → Option R) (maxRetries : Nat)
    (backoff : ℚ) : RetryTrace R :=
  retryAux tryAt backoff maxRetries 0

/-- Whether some attempt of batch `b` succeeds within the retry budget. -/
def batchSucceeds (ok : Nat → Nat → Bool) (maxRetries b : Nat) : Bool :=
  (List.range maxRetries).any (fun a => ok b a)

/-- The Python slice `l[b*B : b*B + B]` (batch number `b` of size `B`). -/
def sliceB {γ : Type} (l : List γ) (B b : Nat) : List γ :=
  (l.drop (b * B)).take B

/-- Number of iterations of `range(0, n, B)`: `⌈n / B⌉` for `B > 0`. -/
def numBatches (n B : Nat) : Nat := (n + B - 1) / B

/-- Write the values `vs` into consecutive positions of `arr` starting at
index `i` (the `all_embeddings[i + j] = embedding` loop). -/
def writeAt {V : Type} : List (Option V) → Nat → List V → List (Option V)
  | arr, _, [] => arr
  | arr, i, v :: vs => writeAt (arr.set i (some v)) (i + 1) vs

/-- One `genai.embed_content` call for batch `b`, attempt `a`: on success the
API returns the embeddings of the batch texts, aligned with the batch. -/
def batchTry {T V : Type} (texts : List T) (f : T → V) (ok : Nat → Nat → Bool)
    (B b : Nat) : Nat → Option (List V) :=
  fun a => if ok b a then some ((sliceB texts B b).map f) else none

/-- The body of the batch loop of `embed_texts`: run the retry loop for
batch `b` and, on success, write the returned vectors into the batch's
positions of `all_embeddings`; on exhaustion leave the positions `None`. -/
def embedStep {T V : Type} (texts : List T) (f : T → V)
    (ok : Nat → Nat → Bool) (B maxRetries : Nat) (backoff : ℚ)
    (arr : List (Option V)) (b : Nat) : List (Option V) :=
  match (retryLoop (batchTry texts f ok B b) maxRetries backoff).result with
  | some vs => writeAt arr (b * B) vs
  | none => arr

/-- `GeminiEmbedder.embed_texts`: preallocate `[None] * len(texts)`, process
the batches in order, and on a batch's success write its vectors into the
batch's positions; a batch that exhausts its retries leaves its positions
`None`. -/
def embedTexts {T V : Type} (texts : List T) (f : T → V)
    (ok : Nat → Nat → Bool) (B maxRetries : Nat) (backoff : ℚ) :
    List (Option V) :=
  if texts.isEmpty then []
  else
    (List.range (numBatches texts.length B)).foldl
      (embedStep texts f ok B maxRetries backoff)
      (List.replicate texts.length none)

/-! ### Vector store (`src/vector_store/chroma_manager.py`)

The chromadb collection is modelled as an association list from id to record
(`(embedding, (metadata, document))`), in insertion order. -/

/-- The ids present in the collection, in insertion order. -/
def storeKeys {α : Type} (s : List (String × α)) : List String :=
  s.map Prod.fst

/-- Modelled from the chromadb dependency: `collection.add` first validates
that the ids of one call are pairwise distinct (raising `DuplicateIDError`
otherwise, before any write), then inserts the records whose id is not yet in
the collection; an id that already exists is skipped with a warning and its
stored record is left unchanged — `add` never overwrites (overwriting needs
`update`/`upsert`, which `ChromaManager` does not call). -/
def collectionAdd {α : Type} (s : List (String × α))
    (batch : List (String × α)) : Except String (List (String × α)) :=
  if (batch.map Prod.fst).Nodup then
    Except.ok (s ++ batch.filter (fun p => decide (p.1 ∉ storeKeys s)))
  else Except.error "DuplicateIDError"

/-- The records `collection.add` is called with for sub-batch `b`: the
parallel slices of the four input lists, zipped into id-keyed records. -/
def subBatch {E M : Type} (ids : List String) (embeddings : List E)
    (metadatas : List M) (documents : List String) (batch_size b : Nat) :
    List (String × (E × M × String)) :=
  (sliceB ids batch_size b).zip
    ((sliceB embeddings batch_size b).zip
      ((sliceB metadatas batch_size b).zip (sliceB documents batch_size b)))

/-- The body of the sub-batch loop of `add_documents`: call `collection.add`
and catch (and merely log) any exception, leaving the collection as the
failed call left it. -/
def addStep {E M : Type} (ids : List String) (embeddings : List E)
    (metadatas : List M) (documents : List String) (batch_size : Nat)
    (s : List (String × (E × M × String))) (b : Nat) :
    List (String × (E × M × String)) :=
  match collectionAdd s (subBatch ids embeddings metadatas documents batch_size b) with
  | Except.ok s2 => s2
  | Except.error _ => s

/-- `ChromaManager.add_documents`: reject (returning with no write) when the
four input lists differ in length; return immediately when `ids` is empty;
otherwise feed the records to `collection.add` in sub-batches of
`batch_size`, catching and logging any per-batch exception (the batch is then
simply skipped). -/
def addDocuments {E M : Type} (store : List (String × (E × M × String)))
    (ids : List String) (embeddings : List E) (metadatas : List M)
    (documents : List String) (batch_size : Nat) :
    List (String × (E × M × String)) :=
  if ids.length = embeddings.length ∧ ids.length = metadatas.length ∧
      ids.length = documents.length then
    if ids.isEmpty then store
    else
      (List.range (numBatches ids.length batch_size)).foldl
        (addStep ids embeddings metadatas documents batch_size)
        store
  else store

/-- `ChromaManager.count`: `collection.count()`, the number of stored
records. -/
def chromaCount {α : Type} (s : List (String × α)) : Nat := s.length

/-- `ChromaManager.query_collection`: return `None` when called with an empty
`query_embeddings` list; otherwise forward to `collection.query` (modelled as
the oracle `call`, which either returns a result or raises) and return `None`
on any exception. -/
def queryCollection {R : Type} (query_embeddings : List (List ℚ))
    (call : Except String R) : Option R :=
  if query_embeddings.isEmpty then none
  else
    match call with
    | Except.ok r => some r
    | Except.error _ => none

/-! ### Query planner (`src/rag_pipeline/query_generator.py`)

The `extracted_requirements` dictionary is modelled as a record whose
optional keys are `Option`-valued (`none` = key absent); keys fetched with a
list default (`.get(k, [])`) are modelled as plain lists, `[]` standing for
the absent key. -/

/-- The `project_summary` sub-dictionary. -/
structure ProjectSummary where
  building_type : Option String := none
  user_style_preference : Option String := none
  total_footprint_sqft : Option Nat := none
  key_constraints_or_desires : List String := []
deriving Repr, DecidableEq

/-- One entry of `room_specifications`. -/
structure RoomSpec where
  room_name : Option String := none
  attributes : List String := []
deriving Repr, DecidableEq

/-- One entry of `special_features`. -/
structure SpecialFeature where
  feature_name : Option String := none
  description : Option String := none
deriving Repr, DecidableEq

/-- The `site_and_orientation` sub-dictionary. -/
structure SiteInfo where
  lot_orientation_street_facing : Option String := none
deriving Repr, DecidableEq

/-- The structured requirements handed to
`QueryGenerator._generate_rule_based_queries` (absent sub-dictionaries are
the all-absent defaults, matching `.get(key, {})`). -/
structure ExtractedRequirements where
  project_summary : ProjectSummary := {}
  room_specifications : List RoomSpec := []
  special_features : List SpecialFeature := []
  site_and_orientation : SiteInfo := {}
deriving Repr, DecidableEq

/-- The general query: `f"General design standards for a {style} {building_type}"`
with `style = project_summary.get("user_style_preference", "")` and
`building_type = project_summary.get("building_type", "building")`. -/
def generalQuery (ps : ProjectSummary) : String :=
  "General design standards for a " ++ ps.user_style_preference.getD "" ++
  " " ++ ps.building_type.getD "building"

/-- The space-planning query, emitted only when
`project_summary.get("total_footprint_sqft")` is truthy (present and
non-zero). -/
def spaceQueries (ps : ProjectSummary) : List String :=
  match ps.total_footprint_sqft with
  | none => []
  | some n =>
    if n = 0 then []
    else ["Space planning considerations for a " ++ toString n ++ " sq ft " ++
      ps.building_type.getD "building"]

/-- One query per entry of `key_constraints_or_desires`. -/
def constraintQueries (ps : ProjectSummary) : List String :=
  ps.key_constraints_or_desires.map (fun c =>
    "Standards or solutions for: " ++ c ++ " in a " ++
    ps.building_type.getD "building")

/-- The keyword-triggered secondary queries for one room name: an
`if`/`elif` chain on case-insensitive substring containment, so only the
first matching keyword group fires. -/
def roomKeywordQueries (room_name : String) : List String :=
  if strHasSub (pyLower room_name) "kitchen" then
    ["Electrical standards for a residential kitchen",
     "Plumbing standards for a residential kitchen",
     "Ventilation standards for a kitchen"]
  else if strHasSub (pyLower room_name) "bath" ||
      strHasSub (pyLower room_name) "washroom" then
    ["Plumbing standards for a bathroom",
     "Electrical safety standards for bathrooms",
     "Accessibility standards for bathrooms"]
  else if strHasSub (pyLower room_name) "bedroom" then
    ["Lighting standards for a bedroom"]
  else []

/-- Per-attribute queries of one room (with the hard-coded special handling
of "godfather vibes" / "mafia style" attributes). -/
def attributeQueries (room_name : String) (attrs : List String) : List String :=
  attrs.flatMap (fun attr =>
    ["Design considerations for a " ++ room_name ++ " with attribute: " ++ attr]
    ++ (if strHasSub (pyLower attr) "godfather vibes" ||
          strHasSub (pyLower attr) "mafia style" then
        ["Interior design elements for '" ++ attr ++ "' in an office or library"]
      else []))

/-- All queries contributed by one `room_specifications` entry, with
`room_name = room_spec.get("room_name", "room")`. -/
def roomQueries (style : String) (rs : RoomSpec) : List String :=
  let room_name := rs.room_name.getD "room"
  ["Standard dimensions and layout for a " ++ style ++ " " ++ room_name,
   "Functional requirements for a " ++ room_name]
  ++ roomKeywordQueries room_name
  ++ attributeQueries room_name rs.attributes

/-- Queries contributed by one `special_features` entry; both the name and
the description are guarded by Python truthiness (absent or empty skips). -/
def featureQueries (f : SpecialFeature) : List String :=
  match f.feature_name with
  | none => []
  | some fn =>
    if fn = "" then []
    else
      ["Standards or examples for implementing: " ++ fn]
      ++ (match f.description with
        | none => []
        | some d =>
          if d = "" then [] else ["Design details for: " ++ d.take 100])

/-- The site/orientation query, guarded by the truthiness of
`site_and_orientation.get("lot_orientation_street_facing")`. -/
def siteQueries (site : SiteInfo) : List String :=
  match site.lot_orientation_street_facing with
  | none => []
  | some s =>
    if s = "" then []
    else ["Sunlight and passive design strategies for a " ++ s ++ " facing lot"]

/-- The accumulated candidate list of
`_generate_rule_based_queries`, before deduplication. -/
def ruleBasedCandidates (r : ExtractedRequirements) : List String :=
  let ps := r.project_summary
  let style := ps.user_style_preference.getD ""
  [generalQuery ps]
  ++ spaceQueries ps
  ++ constraintQueries ps
  ++ r.room_specifications.flatMap (roomQueries style)
  ++ r.special_features.flatMap featureQueries
  ++ siteQueries r.site_and_orientation

/-- `QueryGenerator._generate_rule_based_queries`:
`sorted(list(set(queries)))` — the distinct candidates in code-point
lexicographic order. -/
def generateRuleBasedQueries (r : ExtractedRequirements) : List String :=
  sortStrings pyStrLe (ruleBasedCandidates r).dedup

/-! ### Retrieval orchestration (`run_query_service.py`)

The per-query loop of `run_full_rag_pipeline` (step 3): for each generated
query, embed it in `RETRIEVAL_QUERY` mode, and on a usable embedding query
the chroma collection and copy the parallel result arrays into per-query
context dictionaries.  `embed q` models `embed_texts([q], "RETRIEVAL_QUERY")[0]`
(the single-element call), and `call e` models the underlying
`collection.query` for `query_embeddings=[e]` (raising or returning). -/

/-- The parallel-array result dictionary of a chromadb query: one inner list
per query embedding (the loop only ever reads row 0). -/
structure ChromaQueryResult (M : Type) where
  ids : List (List String)
  documents : List (List String)
  metadatas : List (List M)
  distances : List (List ℚ)
deriving Repr

/-- One element of a per-query context list:
`{"id": ..., "text": ..., "metadata": ..., "distance": ...}`. -/
structure RetrievedContext (M : Type) where
  id : String
  text : String
  metadata : M
  distance : ℚ
deriving Repr

/-- Copy row 0 of the parallel result arrays into context dictionaries:
guarded by `retrieved_docs.get('ids') and retrieved_docs['ids'][0]`, then one
context per index `j < len(ids[0])`. -/
def extractContexts {M : Type} [Inhabited M] (r : ChromaQueryResult M) :
    List (RetrievedContext M) :=
  match r.ids.head? with
  | none => []
  | some ids0 =>
    if ids0.isEmpty then []
    else
      (List.range ids0.length).map (fun j =>
        { id := ids0.getD j ""
          text := (r.documents.headD []).getD j ""
          metadata := (r.metadatas.headD []).getD j default
          distance := (r.distances.headD []).getD j 0 })

/-- The context list computed for one query: `[]` when the embedding is
absent or empty (`not query_embedding_list[0]`), `[]` when
`query_collection` returns `None` or an empty result row, else the extracted
contexts. -/
def contextsForQuery {M : Type} [Inhabited M]
    (embed : String → Option (List ℚ))
    (call : List ℚ → Except String (ChromaQueryResult M)) (q : String) :
    List (RetrievedContext M) :=
  match embed q with
  | none => []
  | some e =>
    if e.isEmpty then []
    else
      match queryCollection [e] (call e) with
      | none => []
      | some r => extractContexts r

/-- Python dict assignment `d[k] = v`: update in place if the key exists,
else append. -/
def dictInsert {β : Type} : List (String × β) → String → β → List (String × β)
  | [], k, v => [(k, v)]
  | (k2, v2) :: rest, k, v =>
    if k2 = k then (k, v) :: rest else (k2, v2) :: dictInsert rest k v

/-- Python dict lookup `d.get(k)`. -/
def dictLookup {β : Type} : List (String × β) → String → Option β
  | [], _ => none
  | (k2, v2) :: rest, k => if k2 = k then some v2 else dictLookup rest k

/-- The retrieval loop of `run_full_rag_pipeline`: starting from the empty
dict `all_retrieved_contexts`, process the queries in order, storing each
query's context list under the query string. -/
def retrieveContexts {M : Type} [Inhabited M] (queries : List String)
    (embed : String → Option (List ℚ))
    (call : List ℚ → Except String (ChromaQueryResult M)) :
    List (String × List (RetrievedContext M)) :=
  queries.foldl (fun m q => dictInsert m q (contextsForQuery embed call q)) []

/-! ## Helper lemmas -/

/-- Membership through `insertSorted`. -/
theorem mem_insertSorted {le : String → String → Bool} {x a : String}
    {l : List String} : a ∈ insertSorted le x l ↔ a = x ∨ a ∈ l := by
  induction l with
  | nil => simp [insertSorted]
  | cons y ys ih =>
    cases hxy : le x y with
    | true => simp [insertSorted, hxy, List.mem_cons, or_assoc, or_comm]
    | false =>
      simp only [insertSorted, hxy, Bool.false_eq_true, if_false, List.mem_cons, ih]
      tauto

/-- Sorting does not change membership. -/
theorem mem_sortStrings {le : String → String → Bool} {a : String}
    {l : List String} : a ∈ sortStrings le l ↔ a ∈ l := by
  induction l with
  | nil => simp [sortStrings]
  | cons y ys ih => simp [sortStrings, mem_insertSorted, ih]

/-- A query is in the planner's output iff it is among the accumulated
candidates. -/
theorem mem_generateRuleBasedQueries {r : ExtractedRequirements} {q : String} :
    q ∈ generateRuleBasedQueries r ↔ q ∈ ruleBasedCandidates r := by
  simp [generateRuleBasedQueries, mem_sortStrings, List.mem_dedup]

/-- For an attempt function with a fixed success value, the retry loop
returns that value iff some attempt in the window succeeds. -/
theorem retryAux_result_const {R : Type} (p : Nat → Bool) (v : R) (β : ℚ) :
    ∀ (fuel s : Nat),
      (retryAux (fun a => if p a then some v else none) β fuel s).result =
        if (List.range' s fuel).any p then some v else none := by
  intro fuel
  induction fuel with
  | zero => intro s; simp [retryAux]
  | succ fuel ih =>
    intro s
    rw [List.range'_succ]
    cases fuel with
    | zero => cases hp : p s <;> simp [retryAux, hp]
    | succ fuel2 =>
      cases hp : p s with
      | true => simp [retryAux, hp]
      | false =>
        have hstep : retryAux (fun a => if p a then some v else none) β
            (fuel2 + 1 + 1) s =
            ⟨(retryAux (fun a => if p a then some v else none) β (fuel2 + 1)
                (s + 1)).result,
              (retryAux (fun a => if p a then some v else none) β (fuel2 + 1)
                (s + 1)).attempts + 1,
              β * 2 ^ s :: (retryAux (fun a => if p a then some v else none) β
                (fuel2 + 1) (s + 1)).sleeps⟩ := by
          show (match (if p s then some v else none : Option R) with
            | some r => (⟨some r, 1, []⟩ : RetryTrace R)
            | none =>
              let t := retryAux (fun a => if p a then some v else none) β
                (fuel2 + 1) (s + 1)
              ⟨t.result, t.attempts + 1, β * 2 ^ s :: t.sleeps⟩) = _
          rw [hp]
          rfl
        rw [hstep]
        simp only [List.any_cons, hp, Bool.false_or]
        exact ih (s + 1)

/-- A batch whose every attempt fails exhausts the whole budget: `fuel`
attempts are made and `fuel - 1` backoff sleeps of `backoff * 2 ^ a` seconds
(for the 0-based failure indices `a` below `fuel - 1`) are taken. -/
theorem retryAux_all_fail {R : Type} (tryAt : Nat → Option R) (β : ℚ)
    (h : ∀ a, tryAt a = none) :
    ∀ (fuel s : Nat),
      retryAux tryAt β fuel s =
        ⟨none, fuel, (List.range' s (fuel - 1)).map (fun a => β * 2 ^ a)⟩ := by
  intro fuel
  induction fuel with
  | zero => intro s; simp [retryAux]
  | succ fuel ih =>
    intro s
    cases fuel with
    | zero => simp [retryAux, h]
    | succ fuel2 =>
      have hstep : retryAux tryAt β (fuel2 + 1 + 1) s =
          ⟨(retryAux tryAt β (fuel2 + 1) (s + 1)).result,
            (retryAux tryAt β (fuel2 + 1) (s + 1)).attempts + 1,
            β * 2 ^ s :: (retryAux tryAt β (fuel2 + 1) (s + 1)).sleeps⟩ := by
        show (match tryAt s with
          | some r => (⟨some r, 1, []⟩ : RetryTrace R)
          | none =>
            let t := retryAux tryAt β (fuel2 + 1) (s + 1)
            ⟨t.result, t.attempts + 1, β * 2 ^ s :: t.sleeps⟩) = _
        rw [h s]
      rw [hstep, ih (s + 1)]
      simp [List.range'_succ]

/-- The retry loop for batch `b` of `embed_texts` yields the batch's
embeddings iff some attempt within the budget succeeds. -/
theorem retryLoop_batchTry_result {T V : Type} (texts : List T) (f : T → V)
    (ok : Nat → Nat → Bool) (B maxRetries b : Nat) (β : ℚ) :
    (retryLoop (batchTry texts f ok B b) maxRetries β).result =
      if batchSucceeds ok maxRetries b then some ((sliceB texts B b).map f)
      else none := by
  unfold retryLoop batchTry batchSucceeds
  rw [retryAux_result_const (fun a => ok b a) ((sliceB texts B b).map f) β
    maxRetries 0]
  rw [List.range_eq_range']

/-- `writeAt` never changes the array length. -/
theorem length_writeAt {V : Type} (vs : List V) :
    ∀ (arr : List (Option V)) (i : Nat),
      (writeAt arr i vs).length = arr.length := by
  induction vs with
  | nil => intro arr i; rfl
  | cons v vs ih =>
    intro arr i
    show (writeAt (arr.set i (some v)) (i + 1) vs).length = arr.length
    rw [ih, List.length_set]

/-- Index-wise description of `writeAt`: positions covered by the written
values hold those values; all others are untouched. -/
theorem getElem?_writeAt {V : Type} (vs : List V) :
    ∀ (arr : List (Option V)) (i j : Nat),
      (writeAt arr i vs)[j]? =
        if i ≤ j ∧ j < i + vs.length ∧ j < arr.length
        then (vs[j - i]?).map some
        else arr[j]? := by
  induction vs with
  | nil =>
    intro arr i j
    rw [show writeAt arr i ([] : List V) = arr from rfl]
    rw [if_neg (by simp; omega)]
  | cons v vs ih =>
    intro arr i j
    show (writeAt (arr.set i (some v)) (i + 1) vs)[j]? = _
    rw [ih, List.length_set]
    by_cases hij : j = i
    · subst hij
      rw [if_neg (by omega)]
      rw [List.getElem?_set]
      by_cases hlen : j < arr.length
      · rw [if_pos rfl, if_pos hlen,
          if_pos ⟨Nat.le_refl j, by simp, hlen⟩]
        simp
      · rw [if_pos rfl, if_neg hlen, if_neg (by omega)]
        exact (List.getElem?_eq_none (by omega)).symm
    · by_cases hreg : i ≤ j ∧ j < i + (v :: vs).length ∧ j < arr.length
      · have hreg2 : i + 1 ≤ j ∧ j < (i + 1) + vs.length ∧ j < arr.length := by
          simp at hreg; omega
        rw [if_pos hreg2, if_pos hreg]
        have hsub : j - i = (j - (i + 1)) + 1 := by omega
        rw [hsub, List.getElem?_cons_succ]
      · rw [if_neg (by simp at hreg ⊢; omega), if_neg hreg]
        rw [List.getElem?_set, if_neg (fun h => hij h.symm)]

/-- Length of a Python batch slice `l[b*B : b*B + B]`. -/
theorem sliceB_length {γ : Type} (l : List γ) (B b : Nat) :
    (sliceB l B b).length = min B (l.length - b * B) := by
  simp [sliceB]

/-- Indexing into a batch slice. -/
theorem getElem?_sliceB {γ : Type} (l : List γ) (B b m : Nat) :
    (sliceB l B b)[m]? = if m < B then l[b * B + m]? else none := by
  simp [sliceB, List.getElem?_take, List.getElem?_drop]

/-- An index `j < n` lies in the region written by batch `k` exactly when
`j / B = k`. -/
theorem batch_region_iff {j k B n : Nat} (hB : 0 < B) (hjn : j < n) :
    (k * B ≤ j ∧ j < k * B + min B (n - k * B)) ↔ j / B = k := by
  constructor
  · rintro ⟨h1, h2⟩
    refine Nat.div_eq_of_lt_le h1 ?_
    have : j < k * B + B := lt_of_lt_of_le h2 (by
      have := Nat.min_le_left B (n - k * B); omega)
    calc j < k * B + B := this
    _ = (k + 1) * B := by ring
  · intro h
    have h1 : k * B ≤ j := by
      rw [← h, mul_comm]; exact Nat.mul_div_le j B
    have hmod : j % B < B := Nat.mod_lt _ hB
    have hdm : B * (j / B) + j % B = j := Nat.div_add_mod j B
    have h2 : j < k * B + B := by
      rw [← h, mul_comm]; omega
    refine ⟨h1, ?_⟩
    rcases Nat.le_total B (n - k * B) with hm | hm
    · rw [Nat.min_eq_left hm]; exact h2
    · rw [Nat.min_eq_right hm]; omega

/-- Within its batch's region, the slice offset of `j` is `j % B`. -/
theorem batch_offset {j k B : Nat} (hB : 0 < B) (h : j / B = k) :
    j - k * B = j % B := by
  have hdm : B * (j / B) + j % B = j := Nat.div_add_mod j B
  rw [h, mul_comm] at hdm
  omega

/-- The batch index of any in-range position is a valid batch number. -/
theorem div_lt_numBatches {n B j : Nat} (hB : 0 < B) (hj : j < n) :
    j / B < numBatches n B := by
  unfold numBatches
  have h1 : j / B ≤ (n - 1) / B := Nat.div_le_div_right (by omega)
  have h2 : n + B - 1 = (n - 1) + B := by omega
  rw [h2, Nat.add_div_right _ hB]
  omega

/-- One step of the batch loop, phrased through the batch's success
predicate. -/
theorem embedStep_eq {T V : Type} (texts : List T) (f : T → V)
    (ok : Nat → Nat → Bool) (B maxRetries : Nat) (β : ℚ)
    (arr : List (Option V)) (b : Nat) :
    embedStep texts f ok B maxRetries β arr b =
      if batchSucceeds ok maxRetries b = true
      then writeAt arr (b * B) ((sliceB texts B b).map f)
      else arr := by
  unfold embedStep
  rw [retryLoop_batchTry_result]
  cases hbk : batchSucceeds ok maxRetries b <;> simp [hbk]

/-- One step of the batch loop preserves the array length. -/
theorem embedStep_length {T V : Type} (texts : List T) (f : T → V)
    (ok : Nat → Nat → Bool) (B maxRetries : Nat) (β : ℚ)
    (arr : List (Option V)) (b : Nat) :
    (embedStep texts f ok B maxRetries β arr b).length = arr.length := by
  rw [embedStep_eq]
  by_cases hbk : batchSucceeds ok maxRetries b = true
  · rw [if_pos hbk, length_writeAt]
  · rw [if_neg hbk]

/-- The batch loop preserves the array length. -/
theorem embedFold_length {T V : Type} (texts : List T) (f : T → V)
    (ok : Nat → Nat → Bool) (B maxRetries : Nat) (β : ℚ) (bs : List Nat) :
    ∀ (arr : List (Option V)),
      (bs.foldl (embedStep texts f ok B maxRetries β) arr).length =
        arr.length := by
  induction bs with
  | nil => intro arr; rfl
  | cons b bs ih =>
    intro arr
    show (bs.foldl _ (embedStep texts f ok B maxRetries β arr b)).length = _
    rw [ih, embedStep_length]

/-- Invariant of the batch loop: after the first `k` batches, position `j`
holds the embedding of `texts[j]` iff its batch is among the first `k` and
succeeded, and `None` otherwise. -/
theorem embedFold_getElem? {T V : Type} (texts : List T) (f : T → V)
    (ok : Nat → Nat → Bool) (B maxRetries : Nat) (β : ℚ) (hB : 0 < B)
    (k j : Nat) (hj : j < texts.length) :
    ((List.range k).foldl (embedStep texts f ok B maxRetries β)
        (List.replicate texts.length none))[j]? =
      some (if j / B < k ∧ batchSucceeds ok maxRetries (j / B) = true
        then some (f (texts.get ⟨j, hj⟩)) else none) := by
  induction k with
  | zero =>
    rw [if_neg (fun h => Nat.not_lt_zero _ h.1)]
    simp [List.getElem?_replicate, hj]
  | succ k ih =>
    rw [List.range_succ, List.foldl_append, List.foldl_cons, List.foldl_nil]
    have hlen : ((List.range k).foldl (embedStep texts f ok B maxRetries β)
        (List.replicate texts.length none)).length = texts.length := by
      rw [embedFold_length, List.length_replicate]
    rw [embedStep_eq]
    by_cases hbk : batchSucceeds ok maxRetries k = true
    · rw [if_pos hbk]
      rw [getElem?_writeAt, hlen, List.length_map, sliceB_length]
      by_cases hjk : j / B = k
      · have hregion : k * B ≤ j ∧ j < k * B + min B (texts.length - k * B) :=
          (batch_region_iff hB hj).mpr hjk
        rw [if_pos ⟨hregion.1, hregion.2, hj⟩]
        rw [List.getElem?_map, getElem?_sliceB]
        have hofs : j - k * B = j % B := batch_offset hB hjk
        have hmod : j % B < B := Nat.mod_lt _ hB
        rw [hofs, if_pos hmod]
        have hidx : k * B + j % B = j := by
          have hdm : B * (j / B) + j % B = j := Nat.div_add_mod j B
          rw [hjk, mul_comm] at hdm
          omega
        rw [hidx, List.getElem?_eq_getElem hj]
        rw [if_pos ⟨by omega, by rw [hjk]; exact hbk⟩]
        rfl
      · have hnotregion : ¬ (k * B ≤ j ∧ j < k * B + min B (texts.length - k * B)) :=
          fun h => hjk ((batch_region_iff hB hj).mp h)
        rw [if_neg (fun h => hnotregion ⟨h.1, h.2.1⟩)]
        rw [ih]
        by_cases hc : j / B < k ∧ batchSucceeds ok maxRetries (j / B) = true
        · rw [if_pos hc, if_pos ⟨by omega, hc.2⟩]
        · rw [if_neg hc, if_neg (by
            rintro ⟨h1, h2⟩
            exact hc ⟨by omega, h2⟩)]
    · rw [if_neg hbk]
      rw [ih]
      by_cases hjk : j / B = k
      · have hbs : ¬ batchSucceeds ok maxRetries (j / B) = true := by
          rw [hjk]; exact hbk
        rw [if_neg (fun h => hbs h.2), if_neg (fun h => hbs h.2)]
      · by_cases hc : j / B < k ∧ batchSucceeds ok maxRetries (j / B) = true
        · rw [if_pos hc, if_pos ⟨by omega, hc.2⟩]
        · rw [if_neg hc, if_neg (by
            rintro ⟨h1, h2⟩
            exact hc ⟨by omega, h2⟩)]

/-- Index-wise description of `embed_texts`: position `j` belongs to batch
`j / B` and receives that batch's embedding of `texts[j]`, or `None` when
the batch exhausted its retries. -/
theorem getElem?_embedTexts {T V : Type} (texts : List T) (f : T → V)
    (ok : Nat → Nat → Bool) (B maxRetries : Nat) (β : ℚ) (hB : 0 < B)
    (j : Nat) (hj : j < texts.length) :
    (embedTexts texts f ok B maxRetries β)[j]? =
      some (if batchSucceeds ok maxRetries (j / B) = true
        then some (f (texts.get ⟨j, hj⟩)) else none) := by
  unfold embedTexts
  have hne : texts.isEmpty = false := by
    cases texts with
    | nil => simp at hj
    | cons t ts => rfl
  rw [hne]
  simp only [Bool.false_eq_true, if_false]
  rw [embedFold_getElem? texts f ok B maxRetries β hB (numBatches texts.length B) j hj]
  have hdiv : j / B < numBatches texts.length B := div_lt_numBatches hB hj
  by_cases hc : batchSucceeds ok maxRetries (j / B) = true
  · rw [if_pos ⟨hdiv, hc⟩, if_pos hc]
  · rw [if_neg (fun h => hc h.2), if_neg hc]

/-! ## C2 — embed_texts is order-preserving and total -/

/-- C2: `embed_texts` returns exactly one entry per input text, in input
order: position `j` holds the embedding of `texts[j]` when `j`'s batch
succeeded within its retry budget, and `None` when it failed — entries are
never dropped or reordered. -/
theorem c2_embed_texts_order_preserving {T V : Type} (texts : List T)
    (f : T → V) (ok : Nat → Nat → Bool) (B maxRetries : Nat) (β : ℚ)
    (hB : 0 < B) :
    (embedTexts texts f ok B maxRetries β).length = texts.length ∧
    ∀ (j : Nat) (hj : j < texts.length),
      (embedTexts texts f ok B maxRetries β)[j]? =
        some (if batchSucceeds ok maxRetries (j / B) = true
          then some (f (texts.get ⟨j, hj⟩)) else none) := by
  constructor
  · unfold embedTexts
    cases texts with
    | nil => rfl
    | cons t ts =>
      rw [if_neg (by simp)]
      rw [embedFold_length, List.length_replicate]
  · intro j hj
    exact getElem?_embedTexts texts f ok B maxRetries β hB j hj

/-- Witness for C2 on a concrete input: two texts, batch size 1, every
attempt succeeding; both positions hold their text's embedding. -/
theorem c2_witness :
    (embedTexts ["ab", "c"] String.length (fun _ _ => true) 1 3 1).length = 2 ∧
    (embedTexts ["ab", "c"] String.length (fun _ _ => true) 1 3 1)[0]? =
      some (some 2) := by
  refine ⟨(c2_embed_texts_order_preserving ["ab", "c"] String.length
    (fun _ _ => true) 1 3 1 (by decide)).1, ?_⟩
  rw [(c2_embed_texts_order_preserving ["ab", "c"] String.length
    (fun _ _ => true) 1 3 1 (by decide)).2 0 (by decide)]
  decide

/-! ## C4 — retry count and backoff schedule -/

/-- C4 counterexample: with `max_retries = 3` and `initial_backoff = 1`, a
batch that always fails is attempted 3 times in total with only 2 sleeps —
the loop counts the first call against `max_retries` and takes no sleep
after the final failure, so there is no third retry with a `4 = 1 * 2^(3-1)`
second sleep as the claim's schedule requires. -/
theorem c4_three_attempts_two_sleeps :
    (retryLoop (fun _ => (none : Option (List ℚ))) 3 1).attempts = 3 ∧
    (retryLoop (fun _ => (none : Option (List ℚ))) 3 1).sleeps.length = 2 :=
  ⟨rfl, rfl⟩

/-- C4 (amended): a batch that fails every attempt is tried `max_retries`
times in total (that is, `max_retries - 1` retries after the first call);
the sleep before retry number `a + 1` is `initial_backoff * 2 ^ a` seconds
(`a = 0, …, max_retries - 2`), no sleep follows the final failure, and the
batch's outputs in `embed_texts` are all `None`. -/
theorem c4_retry_backoff_schedule {T V : Type} (texts : List T) (f : T → V)
    (ok : Nat → Nat → Bool) (B maxRetries k : Nat) (β : ℚ) (hB : 0 < B)
    (hfail : ∀ a, ok k a = false) :
    (retryLoop (batchTry texts f ok B k) maxRetries β).result = none ∧
    (retryLoop (batchTry texts f ok B k) maxRetries β).attempts = maxRetries ∧
    (retryLoop (batchTry texts f ok B k) maxRetries β).sleeps =
      (List.range (maxRetries - 1)).map (fun a => β * 2 ^ a) ∧
    ∀ (j : Nat) (hj : j < texts.length), j / B = k →
      (embedTexts texts f ok B maxRetries β)[j]? = some none := by
  have htry : ∀ a, batchTry texts f ok B k a = none := by
    intro a; simp [batchTry, hfail]
  have hloop := retryAux_all_fail (batchTry texts f ok B k) β htry maxRetries 0
  rw [List.range_eq_range']
  refine ⟨by rw [retryLoop, hloop], by rw [retryLoop, hloop],
    by rw [retryLoop, hloop], ?_⟩
  intro j hj hjk
  rw [getElem?_embedTexts texts f ok B maxRetries β hB j hj]
  have hbs : batchSucceeds ok maxRetries (j / B) = false := by
    rw [hjk]; simp [batchSucceeds, hfail]
  rw [hbs]
  simp

/-- Witness for C4 on a concrete failing batch: one text, batch size 1,
every attempt failing, `max_retries = 3`: three attempts, and the output is
the absent marker. -/
theorem c4_witness :
    (retryLoop (batchTry ["a"] String.length (fun _ _ => false) 1 0) 3 1).attempts
        = 3 ∧
    (embedTexts ["a"] String.length (fun _ _ => false) 1 3 1)[0]? = some none :=
  ⟨(c4_retry_backoff_schedule ["a"] String.length (fun _ _ => false) 1 3 0 1
      (by decide) (fun _ => rfl)).2.1,
    (c4_retry_backoff_schedule ["a"] String.length (fun _ _ => false) 1 3 0 1
      (by decide) (fun _ => rfl)).2.2.2 0 (by decide) rfl⟩

/-! ## C7 — batch failure isolation -/

/-- C7: when batch `k` fails all its attempts and every other batch
succeeds, exactly the positions of batch `k` (the indices `j` with
`j / B = k`) are `None` and every other position holds its text's
embedding — one batch's failure never disturbs the other batches. -/
theorem c7_isolated_batch_failure {T V : Type} (texts : List T) (f : T → V)
    (ok : Nat → Nat → Bool) (B maxRetries k : Nat) (β : ℚ) (hB : 0 < B)
    (hfail : ∀ a, ok k a = false)
    (hrest : ∀ b, b ≠ k → batchSucceeds ok maxRetries b = true) :
    ∀ (j : Nat) (hj : j < texts.length),
      (embedTexts texts f ok B maxRetries β)[j]? =
        some (if j / B = k then none else some (f (texts.get ⟨j, hj⟩))) := by
  intro j hj
  rw [getElem?_embedTexts texts f ok B maxRetries β hB j hj]
  by_cases hjk : j / B = k
  · have hbs : batchSucceeds ok maxRetries (j / B) = false := by
      rw [hjk]; simp [batchSucceeds, hfail]
    rw [hbs, if_pos hjk]
    simp
  · rw [hrest (j / B) hjk, if_neg hjk]
    simp

/-- Witness for C7 on a concrete input: three texts in batches of size 1,
batch 1 failing and the others succeeding: only position 1 is `None`. -/
theorem c7_witness :
    (embedTexts ["ab", "cde", "f"] String.length
        (fun b _ => decide (b ≠ 1)) 1 2 1)[1]? = some none ∧
    (embedTexts ["ab", "cde", "f"] String.length
        (fun b _ => decide (b ≠ 1)) 1 2 1)[0]? = some (some 2) := by
  have h := c7_isolated_batch_failure ["ab", "cde", "f"] String.length
    (fun b _ => decide (b ≠ 1)) 1 2 1 1 (by decide) (fun _ => rfl)
    (fun b hb => by
      have hd : (decide (b ≠ 1)) = true := by simp [hb]
      simp [batchSucceeds, List.range_succ, hd])
  constructor
  · rw [h 1 (by decide)]; rfl
  · rw [h 0 (by decide)]; rfl

/-! ## C5 — chunker construction-time validation -/

/-- C5 counterexample: the claim says `overlap ≥ target_size` must fail at
construction, but constructing the chunker with `overlap = target_size = 500`
succeeds — the langchain splitter's constructor check that the chunker relies
on is strict (`chunk_overlap > chunk_size`), so the boundary case is
accepted. -/
theorem c5_overlap_eq_target_accepted :
    advancedTextChunkerInit 500 500 20 = Except.ok ⟨500, 500, 20⟩ := by
  rfl

/-- C5 (amended): constructing the chunker fails (with the splitter's
configuration `ValueError`) exactly when `overlap` is strictly greater than
`target_size`; `overlap = target_size` is accepted, and a valid configuration
is returned otherwise, so an invalid configuration is never discovered
mid-chunking. -/
theorem c5_init_rejects_iff_overlap_gt_target
    (chunk_target_size chunk_overlap minLen : Nat) :
    ((∃ e, advancedTextChunkerInit chunk_target_size chunk_overlap minLen =
        Except.error e) ↔ chunk_target_size < chunk_overlap) ∧
    ((advancedTextChunkerInit chunk_target_size chunk_overlap minLen =
        Except.ok ⟨chunk_target_size, chunk_overlap, minLen⟩) ↔
      ¬ chunk_target_size < chunk_overlap) := by
  unfold advancedTextChunkerInit
  by_cases h : chunk_target_size < chunk_overlap <;> simp [h]

/-! ## C10 — totality of `query_collection` -/

/-- C10: `query_collection` never raises: it returns `None` exactly when the
`query_embeddings` list is empty or the underlying `collection.query` call
raises, and returns the results dictionary exactly when the input is
non-empty and the underlying call succeeds. -/
theorem c10_query_collection_total {R : Type} (query_embeddings : List (List ℚ))
    (call : Except String R) :
    (queryCollection query_embeddings call = none ↔
      query_embeddings = [] ∨ ∃ e, call = Except.error e) ∧
    (∀ r : R, queryCollection query_embeddings call = some r ↔
      query_embeddings ≠ [] ∧ call = Except.ok r) := by
  cases query_embeddings with
  | nil => cases call <;> simp [queryCollection]
  | cons e es => cases call <;> simp [queryCollection]

/-! ## C6 — absent optional fields in query planning -/

/-- C6 counterexample: for requirements in which every optional field is
absent, the claim says the rule for each absent field is skipped and no
placeholder query is substituted; but the code substitutes the defaults
`"building"` (for the missing building type) and `""` (for the missing style)
and still emits the general-query rule, producing exactly the placeholder
query below. -/
theorem c6_placeholder_for_absent_building_type :
    generateRuleBasedQueries {} = ["General design standards for a  building"] := by
  decide

/-- C6 (amended): for every requirement set, planning is total and, for the
presence-guarded rules (footprint, constraints, special features, room
attributes, street facing), an absent field simply skips its rule; but the
general query and the two per-room base queries are emitted unconditionally,
substituting the defaults `"building"` for a missing building type, `""` for
a missing style and `"room"` for a missing room name — so the general query
built from those defaults is always in the output. -/
theorem c6_absent_fields_skip_guarded_rules (r : ExtractedRequirements) :
    (r.project_summary.total_footprint_sqft = none →
      spaceQueries r.project_summary = []) ∧
    (r.project_summary.key_constraints_or_desires = [] →
      constraintQueries r.project_summary = []) ∧
    (∀ f ∈ r.special_features, f.feature_name = none → featureQueries f = []) ∧
    (r.site_and_orientation.lot_orientation_street_facing = none →
      siteQueries r.site_and_orientation = []) ∧
    (∀ rs ∈ r.room_specifications, rs.attributes = [] →
      attributeQueries (rs.room_name.getD "room") rs.attributes = []) ∧
    generalQuery r.project_summary ∈ generateRuleBasedQueries r := by
  refine ⟨?_, ?_, ?_, ?_, ?_, ?_⟩
  · intro h; simp [spaceQueries, h]
  · intro h; simp [constraintQueries, h]
  · intro f _ h; simp [featureQueries, h]
  · intro h; simp [siteQueries, h]
  · intro rs _ h; simp [attributeQueries, h]
  · rw [mem_generateRuleBasedQueries]
    simp [ruleBasedCandidates]

/-- Witness for C6 at the all-absent requirement set: the footprint rule is
skipped and the placeholder general query is present. -/
theorem c6_witness :
    spaceQueries ({} : ExtractedRequirements).project_summary = [] ∧
    generalQuery ({} : ExtractedRequirements).project_summary ∈
      generateRuleBasedQueries {} :=
  ⟨(c6_absent_fields_skip_guarded_rules {}).1 rfl,
    (c6_absent_fields_skip_guarded_rules {}).2.2.2.2.2⟩

/-! ## C9 — keyword-triggered room queries -/

/-- C9 counterexample: a room named `"Kitchen Washroom"` contains both
`"kitchen"` and `"washroom"`, so the claim requires the bathroom plumbing
query in the output; but the keyword checks form an `if`/`elif` chain in
which the kitchen branch shadows the bath/washroom branch, and no bathroom
query is generated. -/
theorem c9_kitchen_shadows_washroom :
    "Plumbing standards for a bathroom" ∉ generateRuleBasedQueries
      { room_specifications := [{ room_name := some "Kitchen Washroom" }] } := by
  decide

/-- C9 (amended): the keyword groups are checked in the priority order
kitchen → bath/washroom → bedroom and only the first matching group fires:
a room name containing `"kitchen"` (case-insensitively) yields the three
kitchen queries; one containing `"bath"` or `"washroom"` but not `"kitchen"`
yields the three bathroom queries; one containing `"bedroom"` but none of the
earlier keywords yields the lighting query. -/
theorem c9_keyword_queries (r : ExtractedRequirements) (rs : RoomSpec)
    (hrs : rs ∈ r.room_specifications) (name : String)
    (hname : rs.room_name = some name) :
    (strHasSub (pyLower name) "kitchen" = true →
      "Electrical standards for a residential kitchen" ∈
          generateRuleBasedQueries r ∧
        "Plumbing standards for a residential kitchen" ∈
          generateRuleBasedQueries r ∧
        "Ventilation standards for a kitchen" ∈ generateRuleBasedQueries r) ∧
    (strHasSub (pyLower name) "kitchen" = false →
      (strHasSub (pyLower name) "bath" || strHasSub (pyLower name) "washroom")
          = true →
      "Plumbing standards for a bathroom" ∈ generateRuleBasedQueries r ∧
        "Electrical safety standards for bathrooms" ∈
          generateRuleBasedQueries r ∧
        "Accessibility standards for bathrooms" ∈ generateRuleBasedQueries r) ∧
    (strHasSub (pyLower name) "kitchen" = false →
      strHasSub (pyLower name) "bath" = false →
      strHasSub (pyLower name) "washroom" = false →
      strHasSub (pyLower name) "bedroom" = true →
      "Lighting standards for a bedroom" ∈ generateRuleBasedQueries r) := by
  have hmem : ∀ q, q ∈ roomKeywordQueries name → q ∈ generateRuleBasedQueries r := by
    intro q hq
    have hroom : q ∈ roomQueries
        (r.project_summary.user_style_preference.getD "") rs := by
      unfold roomQueries
      simp only [hname, Option.getD_some, List.mem_append, List.mem_cons]
      tauto
    have hfm : q ∈ r.room_specifications.flatMap
        (roomQueries (r.project_summary.user_style_preference.getD "")) :=
      List.mem_flatMap.mpr ⟨rs, hrs, hroom⟩
    rw [mem_generateRuleBasedQueries]
    simp only [ruleBasedCandidates, List.mem_append]
    tauto
  refine ⟨fun hk => ?_, fun hk hb => ?_, fun hk hb hw hbed => ?_⟩
  · have h1 := hmem "Electrical standards for a residential kitchen"
    have h2 := hmem "Plumbing standards for a residential kitchen"
    have h3 := hmem "Ventilation standards for a kitchen"
    simp only [roomKeywordQueries, hk, if_true] at h1 h2 h3
    exact ⟨h1 (by simp), h2 (by simp), h3 (by simp)⟩
  · have h1 := hmem "Plumbing standards for a bathroom"
    have h2 := hmem "Electrical safety standards for bathrooms"
    have h3 := hmem "Accessibility standards for bathrooms"
    simp only [roomKeywordQueries, hk, hb, Bool.false_eq_true, if_false,
      if_true] at h1 h2 h3
    exact ⟨h1 (by simp), h2 (by simp), h3 (by simp)⟩
  · have h1 := hmem "Lighting standards for a bedroom"
    simp only [roomKeywordQueries, hk, hb, hw, hbed, Bool.false_eq_true,
      Bool.or_self, if_false, if_true] at h1
    exact h1 (by simp)

/-- Witness for C9 at a concrete room named `"Washroom"`: the bathroom
plumbing query is produced. -/
theorem c9_witness :
    "Plumbing standards for a bathroom" ∈ generateRuleBasedQueries
      { room_specifications := [{ room_name := some "Washroom" }] } :=
  ((c9_keyword_queries
      { room_specifications := [{ room_name := some "Washroom" }] }
      { room_name := some "Washroom" } (by simp) "Washroom" rfl).2.1
    (by decide) (by decide)).1

/-! ## C8 — content-addressed chunk identifiers -/

/-- Every chunk produced by `pages_to_chunks` carries the id obtained by
hashing the name string built from the source document, its page number, its
(1-based) sequence number on the page and its stripped text. -/
theorem chunk_id_spec (mkId : String → String → String) (ns : String)
    (minLen : Nat) (src : String) (splitText : String → List String)
    (pages : List Page) (c : Chunk)
    (hc : c ∈ pagesToChunks mkId ns minLen src splitText pages) :
    c.id = mkId ns (idContentString src c.metadata.original_page_number
      (c.metadata.chunk_sequence_on_page - 1) c.text) ∧
    c.metadata.source_document = src := by
  rw [pagesToChunks, List.mem_flatMap] at hc
  obtain ⟨page, hpage, hcp⟩ := hc
  rw [pageToChunks] at hcp
  by_cases hblank : pyStrip page.text_content = ""
  · rw [if_pos hblank] at hcp
    simp at hcp
  · rw [if_neg hblank] at hcp
    rw [List.mem_filterMap] at hcp
    obtain ⟨p, hp, heq⟩ := hcp
    dsimp only at heq
    by_cases hcl : pyStrip p.2 = ""
    · rw [if_pos hcl] at heq
      simp at heq
    · rw [if_neg hcl] at heq
      rw [Option.some.injEq] at heq
      rw [← heq]
      simp

/-- C8: a chunk's id is a deterministic content-address of
`(namespace, source document, page number, sequence-on-page, first 50
characters of the stripped text)`: re-chunking the same input reproduces the
same id sequence, and any two chunks — from any two runs — that agree on
those five components receive the same id. -/
theorem c8_chunk_ids_content_addressed (mkId : String → String → String)
    (split split2 : String → List String) (ns ns2 src src2 : String)
    (minLen minLen2 : Nat) (pages pages2 : List Page) (c c2 : Chunk)
    (hc : c ∈ pagesToChunks mkId ns minLen src split pages)
    (hc2 : c2 ∈ pagesToChunks mkId ns2 minLen2 src2 split2 pages2)
    (hns : ns = ns2) (hsrc : src = src2)
    (hpage : c.metadata.original_page_number = c2.metadata.original_page_number)
    (hseq : c.metadata.chunk_sequence_on_page = c2.metadata.chunk_sequence_on_page)
    (htext : c.text.take 50 = c2.text.take 50) :
    ((pagesToChunks mkId ns minLen src split pages).map Chunk.id =
      (pagesToChunks mkId ns minLen src split pages).map Chunk.id) ∧
    c.id = c2.id := by
  refine ⟨rfl, ?_⟩
  rw [(chunk_id_spec mkId ns minLen src split pages c hc).1,
    (chunk_id_spec mkId ns2 minLen2 src2 split2 pages2 c2 hc2).1]
  rw [hns, hsrc, hpage, hseq]
  unfold idContentString
  rw [htext]

set_option maxRecDepth 4000 in
/-- Witness for C8: two runs over different raw pages (one padded with
whitespace, and with a different metadata threshold) produce chunks agreeing
on the five id components, and indeed with equal ids. -/
theorem c8_witness :
    Chunk.id ⟨"ns:doc_p1_chunk1_hello", "hello", ⟨"doc", 1, 1, none⟩⟩ =
      Chunk.id ⟨"ns:doc_p1_chunk1_hello", "hello", ⟨"doc", 1, 1, some 5⟩⟩ :=
  (c8_chunk_ids_content_addressed (fun a b => a ++ ":" ++ b)
    (fun s => [s]) (fun s => [s]) "ns" "ns" "doc" "doc" 20 1
    [⟨1, "hello"⟩] [⟨1, "  hello  "⟩]
    ⟨"ns:doc_p1_chunk1_hello", "hello", ⟨"doc", 1, 1, none⟩⟩
    ⟨"ns:doc_p1_chunk1_hello", "hello", ⟨"doc", 1, 1, some 5⟩⟩
    (by decide) (by decide) rfl rfl rfl rfl rfl).2

/-! ## C3 — `add_documents` and existing ids -/

/-- Keys of a concatenation. -/
theorem storeKeys_append {α : Type} (s t : List (String × α)) :
    storeKeys (s ++ t) = storeKeys s ++ storeKeys t := by
  simp [storeKeys]

/-- One sub-batch step, phrased through the duplicate check: on a valid
batch the new records (those whose id is not yet present) are appended, on a
rejected batch nothing changes. -/
theorem addStep_eq {E M : Type} (ids : List String) (embs : List E)
    (metas : List M) (docs : List String) (B : Nat)
    (s : List (String × (E × M × String))) (b : Nat) :
    addStep ids embs metas docs B s b =
      if ((subBatch ids embs metas docs B b).map Prod.fst).Nodup
      then s ++ (subBatch ids embs metas docs B b).filter
        (fun p => decide (p.1 ∉ storeKeys s))
      else s := by
  unfold addStep collectionAdd
  by_cases hnd : ((subBatch ids embs metas docs B b).map Prod.fst).Nodup
  · simp only [if_pos hnd]
  · simp only [if_neg hnd]

/-- Each sub-batch step only appends records. -/
theorem addStep_extends {E M : Type} (ids : List String) (embs : List E)
    (metas : List M) (docs : List String) (B : Nat)
    (s : List (String × (E × M × String))) (b : Nat) :
    ∃ t, addStep ids embs metas docs B s b = s ++ t := by
  rw [addStep_eq]
  by_cases hnd : ((subBatch ids embs metas docs B b).map Prod.fst).Nodup
  · rw [if_pos hnd]; exact ⟨_, rfl⟩
  · rw [if_neg hnd]; exact ⟨[], (List.append_nil s).symm⟩

/-- The whole sub-batch loop only appends records. -/
theorem foldl_addStep_extends {E M : Type} (ids : List String) (embs : List E)
    (metas : List M) (docs : List String) (B : Nat) (bs : List Nat) :
    ∀ s, ∃ t, bs.foldl (addStep ids embs metas docs B) s = s ++ t := by
  induction bs with
  | nil => intro s; exact ⟨[], (List.append_nil s).symm⟩
  | cons b bs ih =>
    intro s
    obtain ⟨t1, ht1⟩ := addStep_extends ids embs metas docs B s b
    obtain ⟨t2, ht2⟩ := ih (addStep ids embs metas docs B s b)
    exact ⟨t1 ++ t2, by rw [List.foldl_cons, ht2, ht1, List.append_assoc]⟩

/-- A sub-batch step keeps the collection's ids pairwise distinct. -/
theorem addStep_keys_nodup {E M : Type} (ids : List String) (embs : List E)
    (metas : List M) (docs : List String) (B : Nat)
    (s : List (String × (E × M × String))) (b : Nat)
    (h : (storeKeys s).Nodup) :
    (storeKeys (addStep ids embs metas docs B s b)).Nodup := by
  rw [addStep_eq]
  by_cases hnd : ((subBatch ids embs metas docs B b).map Prod.fst).Nodup
  · rw [if_pos hnd, storeKeys_append, List.nodup_append]
    refine ⟨h, ?_, ?_⟩
    · have hsub : List.Sublist
          (((subBatch ids embs metas docs B b).filter
            (fun p => decide (p.1 ∉ storeKeys s))).map Prod.fst)
          ((subBatch ids embs metas docs B b).map Prod.fst) :=
        List.Sublist.map _ (List.filter_sublist _)
      exact List.Nodup.sublist hsub hnd
    · intro a ha hafil
      obtain ⟨p, hpfil, hpa⟩ := List.mem_map.mp hafil
      have hppred := (List.mem_filter.mp hpfil).2
      rw [decide_eq_true_eq] at hppred
      exact hppred (hpa ▸ ha)
  · rw [if_neg hnd]; exact h

/-- The ids handed to `collection.add` for sub-batch `b` are exactly the
`b`-th slice of `ids` (when the four input lists have equal lengths). -/
theorem subBatch_keys {E M : Type} (ids : List String) (embs : List E)
    (metas : List M) (docs : List String) (B b : Nat)
    (hl1 : ids.length = embs.length) (hl2 : ids.length = metas.length)
    (hl3 : ids.length = docs.length) :
    (subBatch ids embs metas docs B b).map Prod.fst = sliceB ids B b := by
  unfold subBatch
  rw [List.map_fst_zip]
  rw [List.length_zip, List.length_zip, sliceB_length, sliceB_length,
    sliceB_length, sliceB_length, ← hl1, ← hl2, ← hl3]
  omega

/-- A sub-batch step is a no-op when every id of the sub-batch is already
in the collection: nothing is inserted and no stored record is touched. -/
theorem addStep_noop {E M : Type} (ids : List String) (embs : List E)
    (metas : List M) (docs : List String) (B : Nat)
    (s : List (String × (E × M × String))) (b : Nat)
    (h : ∀ id ∈ sliceB ids B b, id ∈ storeKeys s) :
    addStep ids embs metas docs B s b = s := by
  rw [addStep_eq]
  by_cases hnd : ((subBatch ids embs metas docs B b).map Prod.fst).Nodup
  · rw [if_pos hnd]
    have hfil : (subBatch ids embs metas docs B b).filter
        (fun p => decide (p.1 ∉ storeKeys s)) = [] := by
      rw [List.filter_eq_nil_iff]
      rintro ⟨id, rec⟩ hp
      have hid : id ∈ sliceB ids B b := (List.of_mem_zip hp).1
      simp [h id hid]
    rw [hfil, List.append_nil]
  · rw [if_neg hnd]

/-- Any slice of a duplicate-free list is duplicate-free. -/
theorem sliceB_nodup {γ : Type} {l : List γ} (B b : Nat) (h : l.Nodup) :
    (sliceB l B b).Nodup := by
  have hsub : List.Sublist (sliceB l B b) l :=
    List.Sublist.trans (List.take_sublist _ _) (List.drop_sublist _ _)
  exact List.Nodup.sublist hsub h

/-- Every element of a slice is an element of the list. -/
theorem sliceB_subset {γ : Type} {l : List γ} (B b : Nat) {x : γ}
    (h : x ∈ sliceB l B b) : x ∈ l :=
  List.drop_subset _ _ (List.take_subset _ _ h)

/-- After a sub-batch step with a duplicate-free batch, all the batch's ids
are present in the collection. -/
theorem addStep_covers {E M : Type} (ids : List String) (embs : List E)
    (metas : List M) (docs : List String) (B b : Nat)
    (hl1 : ids.length = embs.length) (hl2 : ids.length = metas.length)
    (hl3 : ids.length = docs.length) (hnd : (sliceB ids B b).Nodup)
    (s : List (String × (E × M × String))) :
    ∀ id ∈ sliceB ids B b, id ∈ storeKeys (addStep ids embs metas docs B s b) := by
  intro id hid
  rw [addStep_eq,
    if_pos (by rw [subBatch_keys ids embs metas docs B b hl1 hl2 hl3]; exact hnd)]
  rw [storeKeys_append, List.mem_append]
  by_cases hin : id ∈ storeKeys s
  · exact Or.inl hin
  · have hmem : id ∈ (subBatch ids embs metas docs B b).map Prod.fst := by
      rw [subBatch_keys ids embs metas docs B b hl1 hl2 hl3]; exact hid
    obtain ⟨p, hp, hpid⟩ := List.mem_map.mp hmem
    have hpf : p ∈ (subBatch ids embs metas docs B b).filter
        (fun p => decide (p.1 ∉ storeKeys s)) :=
      List.mem_filter.mpr ⟨hp, by simp [hpid, hin]⟩
    exact Or.inr (List.mem_map.mpr ⟨p, hpf, hpid⟩)

/-- Every id of `ids` occurs in some processed sub-batch. -/
theorem mem_slice_of_mem {B : Nat} (hB : 0 < B) {ids : List String}
    {id : String} (hid : id ∈ ids) :
    ∃ b, b ∈ List.range (numBatches ids.length B) ∧ id ∈ sliceB ids B b := by
  obtain ⟨i, hiq⟩ := List.mem_iff_getElem?.mp hid
  have hi : i < ids.length := (List.getElem?_eq_some_iff.mp hiq).1
  refine ⟨i / B, List.mem_range.mpr (div_lt_numBatches hB hi), ?_⟩
  rw [List.mem_iff_getElem?]
  refine ⟨i % B, ?_⟩
  rw [getElem?_sliceB, if_pos (Nat.mod_lt _ hB)]
  have hidx : i / B * B + i % B = i := by
    have hdm := Nat.div_add_mod i B
    rw [mul_comm]
    exact hdm
  rw [hidx]
  exact hiq

/-- After the whole sub-batch loop, the ids of every processed sub-batch are
present. -/
theorem foldl_addStep_covers {E M : Type} (ids : List String) (embs : List E)
    (metas : List M) (docs : List String) (B : Nat)
    (hl1 : ids.length = embs.length) (hl2 : ids.length = metas.length)
    (hl3 : ids.length = docs.length) (hnodup : ids.Nodup) (bs : List Nat) :
    ∀ (s : List (String × (E × M × String))), ∀ b ∈ bs, ∀ id ∈ sliceB ids B b,
      id ∈ storeKeys (bs.foldl (addStep ids embs metas docs B) s) := by
  induction bs with
  | nil =>
    intro s b hb
    simp at hb
  | cons b0 rest ih =>
    intro s b hb id hid
    rw [List.foldl_cons]
    rcases List.mem_cons.mp hb with rfl | hbr
    · have h1 : id ∈ storeKeys (addStep ids embs metas docs B s b) :=
        addStep_covers ids embs metas docs B b hl1 hl2 hl3
          (sliceB_nodup B b hnodup) s id hid
      obtain ⟨t, ht⟩ := foldl_addStep_extends ids embs metas docs B rest
        (addStep ids embs metas docs B s b)
      rw [ht, storeKeys_append, List.mem_append]
      exact Or.inl h1
    · exact ih (addStep ids embs metas docs B s b0) b hbr id hid

/-- The sub-batch loop is a no-op once every id is already present. -/
theorem foldl_addStep_noop {E M : Type} (ids : List String) (embs : List E)
    (metas : List M) (docs : List String) (B : Nat)
    (s : List (String × (E × M × String)))
    (h : ∀ id ∈ ids, id ∈ storeKeys s) (bs : List Nat) :
    bs.foldl (addStep ids embs metas docs B) s = s := by
  induction bs with
  | nil => rfl
  | cons b rest ih =>
    rw [List.foldl_cons,
      addStep_noop ids embs metas docs B s b
        (fun id hid => h id (sliceB_subset B b hid))]
    exact ih

/-- `add_documents` only appends records. -/
theorem addDocuments_extends {E M : Type}
    (store : List (String × (E × M × String))) (ids : List String)
    (embs : List E) (metas : List M) (docs : List String) (B : Nat) :
    ∃ t, addDocuments store ids embs metas docs B = store ++ t := by
  unfold addDocuments
  by_cases hlen : ids.length = embs.length ∧ ids.length = metas.length ∧
      ids.length = docs.length
  · rw [if_pos hlen]
    by_cases hemp : ids.isEmpty
    · rw [if_pos hemp]; exact ⟨[], (List.append_nil store).symm⟩
    · rw [if_neg hemp]
      exact foldl_addStep_extends ids embs metas docs B _ store
  · rw [if_neg hlen]; exact ⟨[], (List.append_nil store).symm⟩

/-- `add_documents` is a no-op when every id is already present. -/
theorem addDocuments_noop {E M : Type}
    (store : List (String × (E × M × String))) (ids : List String)
    (embs : List E) (metas : List M) (docs : List String) (B : Nat)
    (h : ∀ id ∈ ids, id ∈ storeKeys store) :
    addDocuments store ids embs metas docs B = store := by
  unfold addDocuments
  by_cases hlen : ids.length = embs.length ∧ ids.length = metas.length ∧
      ids.length = docs.length
  · rw [if_pos hlen]
    by_cases hemp : ids.isEmpty
    · rw [if_pos hemp]
    · rw [if_neg hemp]
      exact foldl_addStep_noop ids embs metas docs B store h _
  · rw [if_neg hlen]

/-- After `add_documents` with pairwise-distinct ids and well-formed input
lists, every id is present in the collection. -/
theorem addDocuments_covers {E M : Type}
    (store : List (String × (E × M × String))) (ids : List String)
    (embs : List E) (metas : List M) (docs : List String) (B : Nat)
    (hB : 0 < B) (hnodup : ids.Nodup)
    (hl1 : ids.length = embs.length) (hl2 : ids.length = metas.length)
    (hl3 : ids.length = docs.length) :
    ∀ id ∈ ids, id ∈ storeKeys (addDocuments store ids embs metas docs B) := by
  intro id hid
  unfold addDocuments
  rw [if_pos ⟨hl1, hl2, hl3⟩]
  have hne : ids.isEmpty = false := by
    cases ids with
    | nil => simp at hid
    | cons x xs => rfl
  rw [hne]
  simp only [Bool.false_eq_true, if_false]
  obtain ⟨b, hbrange, hbslice⟩ := mem_slice_of_mem hB hid
  exact foldl_addStep_covers ids embs metas docs B hl1 hl2 hl3 hnodup _
    store b hbrange id hbslice

/-- The sub-batch loop keeps the collection's ids duplicate-free. -/
theorem foldl_addStep_keys_nodup {E M : Type} (ids : List String)
    (embs : List E) (metas : List M) (docs : List String) (B : Nat)
    (bs : List Nat) :
    ∀ (s : List (String × (E × M × String))), (storeKeys s).Nodup →
      (storeKeys (bs.foldl (addStep ids embs metas docs B) s)).Nodup := by
  induction bs with
  | nil => intro s h; exact h
  | cons b rest ih =>
    intro s h
    rw [List.foldl_cons]
    exact ih _ (addStep_keys_nodup ids embs metas docs B s b h)

/-- `add_documents` keeps the collection's ids duplicate-free. -/
theorem addDocuments_keys_nodup {E M : Type}
    (store : List (String × (E × M × String))) (ids : List String)
    (embs : List E) (metas : List M) (docs : List String) (B : Nat)
    (h : (storeKeys store).Nodup) :
    (storeKeys (addDocuments store ids embs metas docs B)).Nodup := by
  unfold addDocuments
  by_cases hlen : ids.length = embs.length ∧ ids.length = metas.length ∧
      ids.length = docs.length
  · rw [if_pos hlen]
    by_cases hemp : ids.isEmpty
    · rw [if_pos hemp]; exact h
    · rw [if_neg hemp]
      exact foldl_addStep_keys_nodup ids embs metas docs B _ store h
  · rw [if_neg hlen]; exact h

/-- C3 counterexample: adding a changed record under an id that already
exists does not overwrite it — the collection still holds the old record and
only the old record, because `add_documents` calls `collection.add` (which
skips existing ids) and never `upsert`. -/
theorem c3_add_does_not_overwrite :
    addDocuments [("a", ((1 : Nat), ((0 : Nat), "old")))]
        ["a"] [2] [0] ["new"] 100 =
      [("a", ((1 : Nat), ((0 : Nat), "old")))] ∧
    ((1 : Nat), ((0 : Nat), "old")) ≠ ((2 : Nat), ((0 : Nat), "new")) := by
  constructor
  · decide
  · decide

/-- C3 (amended): `add_documents` never overwrites an existing record (every
stored record survives unchanged, and ids stay duplicate-free), and re-adding
an unchanged ID set is a no-op: the second identical call leaves the
collection — and hence `count()` — exactly as after the first. -/
theorem c3_readd_unchanged_ids_noop {E M : Type}
    (store : List (String × (E × M × String))) (ids : List String)
    (embs : List E) (metas : List M) (docs : List String) (B : Nat)
    (hB : 0 < B) (hnodup : ids.Nodup)
    (hl1 : ids.length = embs.length) (hl2 : ids.length = metas.length)
    (hl3 : ids.length = docs.length) :
    (∀ p ∈ store, p ∈ addDocuments store ids embs metas docs B) ∧
    ((storeKeys store).Nodup →
      (storeKeys (addDocuments store ids embs metas docs B)).Nodup) ∧
    addDocuments (addDocuments store ids embs metas docs B)
        ids embs metas docs B =
      addDocuments store ids embs metas docs B ∧
    chromaCount (addDocuments (addDocuments store ids embs metas docs B)
        ids embs metas docs B) =
      chromaCount (addDocuments store ids embs metas docs B) := by
  have hidem : addDocuments (addDocuments store ids embs metas docs B)
      ids embs metas docs B = addDocuments store ids embs metas docs B :=
    addDocuments_noop _ ids embs metas docs B
      (addDocuments_covers store ids embs metas docs B hB hnodup hl1 hl2 hl3)
  refine ⟨?_, ?_, hidem, by rw [hidem]⟩
  · intro p hp
    obtain ⟨t, ht⟩ := addDocuments_extends store ids embs metas docs B
    rw [ht]
    exact List.mem_append.mpr (Or.inl hp)
  · exact addDocuments_keys_nodup store ids embs metas docs B

/-- Witness for C3 on a concrete collection: adding `("x", …)` twice leaves
the store as after the first add, with one record. -/
theorem c3_witness :
    addDocuments (addDocuments ([] : List (String × (Nat × Nat × String)))
        ["x"] [7] [0] ["doc"] 100) ["x"] [7] [0] ["doc"] 100 =
      addDocuments ([] : List (String × (Nat × Nat × String)))
        ["x"] [7] [0] ["doc"] 100 :=
  (c3_readd_unchanged_ids_noop ([] : List (String × (Nat × Nat × String)))
    ["x"] [7] [0] ["doc"] 100 (by decide) (by decide) rfl rfl rfl).2.2.1

/-! ## C1 — total query coverage in the retrieval loop -/

/-- Looking a key up after a Python-dict insertion. -/
theorem dictLookup_dictInsert {β : Type} (m : List (String × β))
    (k : String) (v : β) (k2 : String) :
    dictLookup (dictInsert m k v) k2 =
      if k2 = k then some v else dictLookup m k2 := by
  induction m with
  | nil =>
    by_cases h : k2 = k
    · subst h; simp [dictInsert, dictLookup]
    · have h2 : ¬ k = k2 := fun hh => h hh.symm
      simp [dictInsert, dictLookup, h, h2]
  | cons a rest ih =>
    obtain ⟨ka, va⟩ := a
    by_cases hak : ka = k
    · subst hak
      rw [show dictInsert ((ka, va) :: rest) ka v = (ka, v) :: rest from by
        simp [dictInsert]]
      by_cases h : k2 = ka
      · rw [if_pos h]
        rw [show dictLookup ((ka, v) :: rest) k2 = some v from by
          simp [dictLookup, h]]
      · have h2 : ¬ ka = k2 := fun hh => h hh.symm
        rw [if_neg h]
        rw [show dictLookup ((ka, v) :: rest) k2 = dictLookup rest k2 from by
          simp [dictLookup, h2]]
        rw [show dictLookup ((ka, va) :: rest) k2 = dictLookup rest k2 from by
          simp [dictLookup, h2]]
    · rw [show dictInsert ((ka, va) :: rest) k v =
        (ka, va) :: dictInsert rest k v from by simp [dictInsert, hak]]
      by_cases h : k2 = k
      · have hka2 : ¬ ka = k2 := fun hh => hak (hh.trans h)
        rw [show dictLookup ((ka, va) :: dictInsert rest k v) k2 =
          dictLookup (dictInsert rest k v) k2 from by simp [dictLookup, hka2]]
        rw [ih, if_pos h, if_pos h]
      · by_cases hka2 : ka = k2
        · rw [show dictLookup ((ka, va) :: dictInsert rest k v) k2 = some va
            from by simp [dictLookup, hka2]]
          rw [if_neg h]
          rw [show dictLookup ((ka, va) :: rest) k2 = some va from by
            simp [dictLookup, hka2]]
        · rw [show dictLookup ((ka, va) :: dictInsert rest k v) k2 =
            dictLookup (dictInsert rest k v) k2 from by simp [dictLookup, hka2]]
          rw [ih, if_neg h, if_neg h]
          rw [show dictLookup ((ka, va) :: rest) k2 = dictLookup rest k2 from by
            simp [dictLookup, hka2]]

/-- Keys present after a Python-dict insertion. -/
theorem mem_keys_dictInsert {β : Type} (m : List (String × β)) (k : String)
    (v : β) (k2 : String) :
    k2 ∈ storeKeys (dictInsert m k v) ↔ k2 = k ∨ k2 ∈ storeKeys m := by
  induction m with
  | nil => simp [dictInsert, storeKeys]
  | cons a rest ih =>
    obtain ⟨ka, va⟩ := a
    by_cases hak : ka = k
    · subst hak
      rw [show dictInsert ((ka, va) :: rest) ka v = (ka, v) :: rest from by
        simp [dictInsert]]
      rw [show storeKeys ((ka, v) :: rest) = ka :: storeKeys rest from rfl,
        show storeKeys ((ka, va) :: rest) = ka :: storeKeys rest from rfl]
      rw [List.mem_cons]
      tauto
    · rw [show dictInsert ((ka, va) :: rest) k v =
        (ka, va) :: dictInsert rest k v from by simp [dictInsert, hak]]
      rw [show storeKeys ((ka, va) :: dictInsert rest k v) =
        ka :: storeKeys (dictInsert rest k v) from rfl,
        show storeKeys ((ka, va) :: rest) = ka :: storeKeys rest from rfl]
      rw [List.mem_cons, List.mem_cons, ih]
      tauto

/-- Python-dict insertion keeps keys duplicate-free. -/
theorem nodup_keys_dictInsert {β : Type} (m : List (String × β)) (k : String)
    (v : β) (h : (storeKeys m).Nodup) :
    (storeKeys (dictInsert m k v)).Nodup := by
  induction m with
  | nil => simp [dictInsert, storeKeys]
  | cons a rest ih =>
    obtain ⟨ka, va⟩ := a
    rw [show storeKeys ((ka, va) :: rest) = ka :: storeKeys rest from rfl,
      List.nodup_cons] at h
    by_cases hak : ka = k
    · subst hak
      rw [show dictInsert ((ka, va) :: rest) ka v = (ka, v) :: rest from by
        simp [dictInsert]]
      rw [show storeKeys ((ka, v) :: rest) = ka :: storeKeys rest from rfl,
        List.nodup_cons]
      exact h
    · rw [show dictInsert ((ka, va) :: rest) k v =
        (ka, va) :: dictInsert rest k v from by simp [dictInsert, hak]]
      rw [show storeKeys ((ka, va) :: dictInsert rest k v) =
        ka :: storeKeys (dictInsert rest k v) from rfl, List.nodup_cons]
      refine ⟨?_, ih h.2⟩
      rw [mem_keys_dictInsert]
      rintro (rfl | hmem)
      · exact hak rfl
      · exact h.1 hmem

/-- Looking up a query after the retrieval fold: every processed query maps
to its computed context list, and nothing else changes. -/
theorem retrieveFold_lookup {M : Type} [Inhabited M]
    (embed : String → Option (List ℚ))
    (call : List ℚ → Except String (ChromaQueryResult M)) (qs : List String) :
    ∀ (m : List (String × List (RetrievedContext M))) (q : String),
      dictLookup (qs.foldl
          (fun m q => dictInsert m q (contextsForQuery embed call q)) m) q =
        if q ∈ qs then some (contextsForQuery embed call q)
        else dictLookup m q := by
  induction qs with
  | nil => intro m q; simp
  | cons q0 rest ih =>
    intro m q
    rw [List.foldl_cons, ih]
    by_cases hq : q ∈ rest
    · rw [if_pos hq, if_pos (List.mem_cons.mpr (Or.inr hq))]
    · rw [if_neg hq, dictLookup_dictInsert]
      by_cases hq0 : q = q0
      · subst hq0
        rw [if_pos rfl, if_pos (List.mem_cons.mpr (Or.inl rfl))]
      · rw [if_neg hq0, if_neg (by
          rw [List.mem_cons]
          rintro (rfl | hmem)
          · exact hq0 rfl
          · exact hq hmem)]

/-- Keys present after the retrieval fold. -/
theorem retrieveFold_keys {M : Type} [Inhabited M]
    (embed : String → Option (List ℚ))
    (call : List ℚ → Except String (ChromaQueryResult M)) (qs : List String) :
    ∀ (m : List (String × List (RetrievedContext M))) (q : String),
      q ∈ storeKeys (qs.foldl
          (fun m q => dictInsert m q (contextsForQuery embed call q)) m) ↔
        q ∈ qs ∨ q ∈ storeKeys m := by
  induction qs with
  | nil => intro m q; simp
  | cons q0 rest ih =>
    intro m q
    rw [List.foldl_cons, ih, mem_keys_dictInsert, List.mem_cons]
    tauto

/-- The retrieval fold keeps the dict's keys duplicate-free. -/
theorem retrieveFold_nodup {M : Type} [Inhabited M]
    (embed : String → Option (List ℚ))
    (call : List ℚ → Except String (ChromaQueryResult M)) (qs : List String) :
    ∀ (m : List (String × List (RetrievedContext M))),
      (storeKeys m).Nodup →
      (storeKeys (qs.foldl
          (fun m q => dictInsert m q (contextsForQuery embed call q)) m)).Nodup := by
  induction qs with
  | nil => intro m h; exact h
  | cons q0 rest ih =>
    intro m h
    rw [List.foldl_cons]
    exact ih _ (nodup_keys_dictInsert m q0 _ h)

/-- C1: the retrieval loop produces a context map with exactly one key per
input query — keys are duplicate-free and are exactly the input queries;
each query maps to its own computed context list; a query whose embedding is
absent maps to the empty context list; and a query with a usable embedding
maps verbatim to whatever the collection query returned for it. -/
theorem c1_total_query_coverage {M : Type} [Inhabited M]
    (queries : List String) (embed : String → Option (List ℚ))
    (call : List ℚ → Except String (ChromaQueryResult M)) :
    (storeKeys (retrieveContexts queries embed call)).Nodup ∧
    (∀ q, q ∈ storeKeys (retrieveContexts queries embed call) ↔ q ∈ queries) ∧
    (∀ q, q ∈ queries → dictLookup (retrieveContexts queries embed call) q =
      some (contextsForQuery embed call q)) ∧
    (∀ q, embed q = none → contextsForQuery embed call q = []) ∧
    (∀ q e r, embed q = some e → e ≠ [] → call e = Except.ok r →
      contextsForQuery embed call q = extractContexts r) := by
  refine ⟨?_, ?_, ?_, ?_, ?_⟩
  · exact retrieveFold_nodup embed call queries [] (by simp [storeKeys])
  · intro q
    rw [retrieveContexts, retrieveFold_keys]
    simp [storeKeys]
  · intro q hq
    rw [retrieveContexts, retrieveFold_lookup, if_pos hq]
  · intro q hq
    simp [contextsForQuery, hq]
  · intro q e r hq he hr
    have hee : e.isEmpty = false := by
      cases e with
      | nil => exact absurd rfl he
      | cons x xs => rfl
    have hqc : queryCollection [e] (call e) = some r := by
      unfold queryCollection
      rw [if_neg (by simp), hr]
    simp only [contextsForQuery, hq, hee, Bool.false_eq_true, if_false, hqc]

/-- Witness for C1 on a concrete run: two queries, the first with an absent
embedding and the second with a failing collection query; both queries are
keys, the first maps to the empty context list. -/
theorem c1_witness :
    dictLookup (retrieveContexts (M := Nat) ["a", "b"]
        (fun q => if q = "a" then none else some [1])
        (fun _ => Except.error "down")) "a" =
      some (contextsForQuery (M := Nat)
        (fun q => if q = "a" then none else some [1])
        (fun _ => Except.error "down") "a") ∧
    contextsForQuery (M := Nat) (fun q => if q = "a" then none else some [1])
        (fun _ => Except.error "down") "a" = [] := by
  refine ⟨(c1_total_query_coverage ["a", "b"]
      (fun q => if q = "a" then none else some [1])
      (fun _ => Except.error "down")).2.2.1 "a" (by decide), ?_⟩
  exact (c1_total_query_coverage ["a", "b"]
      (fun q => if q = "a" then none else some [1])
      (fun _ => Except.error "down")).2.2.2.1 "a" rfl

end ArchRag
